import Mathlib

/-!
# github-commander: configuration model and reconciliation engine, shallowly embedded

This file embeds the configuration-reading and reconciliation (diff-and-apply)
logic of the `github-commander` CLI tool in Lean and proves properties about it.

The embedding is taken from the JavaScript source:
* `lib/configReader.js` — permission parsing, config validation, label merging
  and lower-casing;
* `lib/commands/issueLabels.js` — issue-label reconciliation (add, update,
  delete phases, case-insensitive name matching, update payload);
* `lib/commands/issueTemplates.js` — issue-template reconciliation (delete,
  update, add phases, exact name matching, file-name collision handling);
* `lib/commands/repositorySettings.js` — branch-protection reconciliation
  (unconditional protection update, 404-tolerant protection removal);
* `lib/commands/permissions.js` — team-permission resolution and upsert/remove;
* `lib/asyncSequence.js` and `lib/commands/commandRunner.js` — sequential
  per-repository processing and top-level error handling.

Asynchronous API calls are modelled as pure mutation plans (lists of mutation
values in the order the code awaits them) and as `Except`-valued outcomes for
the error-handling call sites.
-/

namespace GithubCommander

/-! ## Permission parsing (`lib/configReader.js`, `parsePermissionString`) -/

/-- The spellings accepted by `parsePermissionString` after lower-casing. -/
def allowedPermissionWords : List String :=
  ["none", "read", "pull", "write", "push", "admin"]

/-- The error message thrown for an unrecognised permission string `p`
(`configReader.js` line 27). -/
def invalidPermissionMessage (p : String) : String :=
  s!"Invalid permission '{p}'. Must be one of 'none'/null, 'read'/'pull', 'write'/'push' or 'admin'."

/-- `parsePermissionString` from `lib/configReader.js` (lines 10–29).
`null` input (modelled as `none`) maps to `null`; otherwise the input is
lower-cased and matched against the recognised spellings; anything else throws. -/
def parsePermissionString (permission : Option String) : Except String (Option String) :=
  match permission with
  | none => .ok none
  | some p =>
    match p.toLower with
    | "none" => .ok none
    | "read" | "pull" => .ok (some "pull")
    | "write" | "push" => .ok (some "push")
    | "admin" => .ok (some "admin")
    | _ => .error (invalidPermissionMessage p)

/-! ## Configuration data model (`lib/configReader.js`) -/

/-- A team entry of the configuration after permission parsing:
`defaultPermission` is the canonical permission, `none` meaning "no access". -/
structure Team where
  name : String
  defaultPermission : Option String
deriving DecidableEq, Repr

/-- A `teamPermissions` entry of a repository override (canonical permission). -/
structure TeamPermission where
  teamName : String
  permission : Option String
deriving DecidableEq, Repr

/-- An issue label entry of the configuration
(`name`, `color`, optional `description`). -/
structure ConfigLabel where
  name : String
  color : String
  description : Option String
deriving DecidableEq, Repr

/-- A repository entry of the configuration, restricted to the fields the
label and permission reconciliations read. `issueLabels` and
`additionalIssueLabels` are `none` when the field is absent. -/
structure RepositoryConfig where
  name : String
  teamPermissions : List TeamPermission
  issueLabels : Option (List ConfigLabel)
  additionalIssueLabels : Option (List ConfigLabel)
deriving DecidableEq, Repr

/-- The organisation configuration, restricted to the fields the embedded
commands read. -/
structure OrgConfig where
  orgName : String
  teams : List Team
  issueLabels : List ConfigLabel
  repositories : List RepositoryConfig
deriving DecidableEq, Repr

/-! ## Issue label validation and the reader's label pipeline
(`lib/configReader.js`, `validateIssueLabel` and module export lines 306–326) -/

/-- The regular expression `^[a-fA-F0-9]{3,6}$` from `validateIssueLabel`:
three to six hexadecimal digits (either case), anchored at both ends. -/
def isHexColor (color : String) : Bool :=
  decide (3 ≤ color.length) && decide (color.length ≤ 6) &&
    color.data.all fun c =>
      (decide ('0' ≤ c) && decide (c ≤ '9')) ||
      (decide ('a' ≤ c) && decide (c ≤ 'f')) ||
      (decide ('A' ≤ c) && decide (c ≤ 'F'))

/-- Error message of the empty-color check (`configReader.js` line 66). -/
def colorTypeErrorMessage (index : Nat) : String :=
  s!"Invalid config: 'issueLabels[{index}].color' must be of type 'String'."

/-- Error message of the hex-color check (`configReader.js` line 69). -/
def colorHexErrorMessage (index : Nat) (color : String) : String :=
  s!"Invalid config: 'issueLabels[{index}].color' must be a valid hex color code. '{color}' given."

/-- `validateIssueLabel` from `lib/configReader.js` (lines 58–78): checks the
name, the color (non-empty, then against the hex regex) and the optional
description (at most 100 characters), throwing at the first failure. -/
def validateIssueLabel (issueLabel : ConfigLabel) (index : Nat) : Except String Unit :=
  if issueLabel.name.length == 0 then
    .error s!"Invalid config: 'issueLabels[{index}].name' must be of type 'String'."
  else if issueLabel.color.length == 0 then
    .error (colorTypeErrorMessage index)
  else if !(isHexColor issueLabel.color) then
    .error (colorHexErrorMessage index issueLabel.color)
  else
    match issueLabel.description with
    | some d =>
      if d.length > 100 then
        .error s!"Invalid config: 'issueLabels[{index}].description' must not exceed 100 characters."
      else .ok ()
    | none => .ok ()

/-- `labels.forEach(validateIssueLabel)`: validate each label with its index,
stopping at the first error. -/
def validateIssueLabelListFrom (labels : List ConfigLabel) (index : Nat) : Except String Unit :=
  match labels with
  | [] => .ok ()
  | l :: rest => do
    validateIssueLabel l index
    validateIssueLabelListFrom rest (index + 1)

/-- Validation of a whole label list, indices starting at 0. -/
def validateIssueLabelList (labels : List ConfigLabel) : Except String Unit :=
  validateIssueLabelListFrom labels 0

/-- Error for a repository that sets both `issueLabels` and
`additionalIssueLabels` (`configReader.js` line 308). -/
def bothLabelFieldsMessage (repositoryName : String) : String :=
  s!"Invalid config: '{repositoryName}' must not specify both 'issueLabels' and 'additionalIssueLabels'"

/-- The per-repository label checks of the reader (`configReader.js`
lines 306–322): mutual exclusion of `issueLabels` and
`additionalIssueLabels`, then validation of whichever list is present. -/
def validateRepositoryLabels (repository : RepositoryConfig) : Except String Unit :=
  if repository.issueLabels.isSome && repository.additionalIssueLabels.isSome then
    .error (bothLabelFieldsMessage repository.name)
  else do
    match repository.issueLabels with
    | some labels => validateIssueLabelList labels
    | none => pure ()
    match repository.additionalIssueLabels with
    | some labels => validateIssueLabelList labels
    | none => pure ()

/-- Lower-case a label's color, leaving name and description unchanged
(the effect of `label.color = label.color.toLowerCase()`). -/
def lowerLabelColor (label : ConfigLabel) : ConfigLabel :=
  { label with color := label.color.toLower }

/-- The issue-label part of the configuration reader (`lib/configReader.js`
lines 261–268 and 306–326) as a function from the parsed configuration to the
final in-memory configuration.

In the source the steps run in this order: org-level labels are validated;
each repository's labels are validated, and when `additionalIssueLabels` is
set the repository's `issueLabels` is assigned
`[...config.issueLabels, ...repository.additionalIssueLabels]` (an array of
references to the org label objects followed by the additional label
objects); finally `config.issueLabels.forEach(label => label.color =
label.color.toLowerCase())` mutates the org label objects in place. Because
the merged repository lists alias those same org label objects, the org-label
prefix of each merged list ends up lower-cased as well, while labels from
`additionalIssueLabels` and from an explicit repository `issueLabels`
override are distinct objects and keep their colors exactly as written. The
definition below computes that final state directly. -/
def finalRepositoryLabels (loweredOrgLabels : List ConfigLabel)
    (repository : RepositoryConfig) : RepositoryConfig :=
  match repository.issueLabels, repository.additionalIssueLabels with
  | some labels, _ => { repository with issueLabels := some labels }
  | none, some additional =>
    { repository with issueLabels := some (loweredOrgLabels ++ additional) }
  | none, none => repository

/-- The label pipeline itself: validate, then compute the final state. -/
def readConfigLabels (config : OrgConfig) : Except String OrgConfig := do
  validateIssueLabelList config.issueLabels
  config.repositories.forM validateRepositoryLabels
  let loweredOrgLabels := config.issueLabels.map lowerLabelColor
  pure { config with
    issueLabels := loweredOrgLabels
    repositories := config.repositories.map (finalRepositoryLabels loweredOrgLabels) }

/-! ## Effective issue labels per repository
(`lib/commands/issueLabels.js` lines 56–58) -/

/-- `const expectedIssueLabels = (repositoryConfig && repositoryConfig.issueLabels)
|| config.issueLabels;` — the repository's `issueLabels` when the repository
is configured and the field is set (after the reader, that is the explicit
override or the merged org-plus-additional list), otherwise the org-level
labels. -/
def expectedIssueLabels (config : OrgConfig) (repoName : String) : List ConfigLabel :=
  match config.repositories.find? fun repository => repository.name == repoName with
  | some repositoryConfig =>
    match repositoryConfig.issueLabels with
    | some labels => labels
    | none => config.issueLabels
  | none => config.issueLabels

/-! ## Issue label reconciliation (`lib/commands/issueLabels.js` lines 60–109) -/

/-- A live repository label as returned by the GitHub API. -/
structure RepoLabel where
  name : String
  color : String
  description : Option String
deriving DecidableEq, Repr

/-- A label mutation sent to the GitHub API. `update` records the
`oldname`/`current_name` and `name` fields of the update payload. -/
inductive LabelMutation where
  | create (name : String) (description : Option String) (color : String)
  | update (currentName : String) (newName : String) (description : Option String) (color : String)
  | delete (name : String)
deriving DecidableEq, Repr

/-- JavaScript `x || null` applied to an optional description: an absent or
empty description becomes `null`. -/
def descriptionOrNull (description : Option String) : Option String :=
  match description with
  | some "" => none
  | other => other

/-- The label name comparison used throughout the labels command:
`a.toLowerCase() === b.toLowerCase()`. -/
def labelNamesMatch (a b : String) : Bool :=
  a.toLower == b.toLower

/-- `labelsToAdd` (line 61): expected labels with no case-insensitive name
match among the live labels. -/
def labelsToAdd (expected : List ConfigLabel) (repoLabels : List RepoLabel) :
    List ConfigLabel :=
  expected.filter fun issueLabel =>
    !(repoLabels.any fun label => labelNamesMatch label.name issueLabel.name)

/-- The update decision for one live label (lines 75–97): find the first
expected label with a case-insensitive name match; skip when description and
color (live color lower-cased) already agree; otherwise emit an update
carrying the live label's name as both `oldname` and `name`. -/
def labelUpdateFor (expected : List ConfigLabel) (repoLabel : RepoLabel) :
    Option LabelMutation :=
  match expected.find? fun label => labelNamesMatch label.name repoLabel.name with
  | none => none
  | some issueLabel =>
    let issueLabelDescription := descriptionOrNull issueLabel.description
    let repoLabelDescription := descriptionOrNull repoLabel.description
    if issueLabelDescription == repoLabelDescription &&
        issueLabel.color == repoLabel.color.toLower then
      none
    else
      some (.update repoLabel.name repoLabel.name issueLabelDescription issueLabel.color)

/-- `repoLabelsToDelete` (line 100): live labels with no case-insensitive
name match among the expected labels. -/
def labelsToDelete (expected : List ConfigLabel) (repoLabels : List RepoLabel) :
    List RepoLabel :=
  repoLabels.filter fun repoLabel =>
    !(expected.any fun label => labelNamesMatch label.name repoLabel.name)

/-- The full mutation plan of one repository's label sync, in the order the
command awaits the three phases (lines 60–109): first the additions, then the
updates, then the deletions. -/
def labelSyncPlan (expected : List ConfigLabel) (repoLabels : List RepoLabel) :
    List LabelMutation :=
  ((labelsToAdd expected repoLabels).map fun newLabel =>
    .create newLabel.name (descriptionOrNull newLabel.description) newLabel.color)
  ++ repoLabels.filterMap (labelUpdateFor expected)
  ++ ((labelsToDelete expected repoLabels).map fun repoLabel => .delete repoLabel.name)

/-! ## Issue template reconciliation (`lib/commands/issueTemplates.js`
lines 148–209) -/

/-- A configured issue template after the command has read and rendered the
template file: `githubTemplateFile` is the rendered GitHub-compatible file
content (front matter plus template body). -/
structure ConfigTemplate where
  name : String
  description : String
  templateFile : String
  githubTemplateFile : String
deriving DecidableEq, Repr

/-- A live issue template parsed from `.github/ISSUE_TEMPLATE/`:
file name, blob sha, the `name` field of its YAML front matter, and the raw
file content. -/
structure RepoTemplate where
  fileName : String
  fileSha : String
  metaName : String
  rawFileContent : String
deriving DecidableEq, Repr

/-- A template mutation: one commit deleting, updating or creating a file
under `.github/ISSUE_TEMPLATE/`. -/
inductive TemplateMutation where
  | deleteFile (fileName : String) (templateName : String)
  | updateFile (fileName : String) (templateName : String) (content : String)
  | createFile (fileName : String) (templateName : String) (content : String)
deriving DecidableEq, Repr

/-- `repoTemplatesToDelete` (line 149): live templates whose front-matter
name has no exact (`===`) match among the configured template names. -/
def templatesToDelete (configTemplates : List ConfigTemplate)
    (repoTemplates : List RepoTemplate) : List RepoTemplate :=
  repoTemplates.filter fun repoTemplate =>
    !(configTemplates.any fun template => template.name == repoTemplate.metaName)

/-- Line 159: `repoTemplates = repoTemplates.filter(t => !toDelete.includes(t))`. -/
def remainingTemplates (configTemplates : List ConfigTemplate)
    (repoTemplates : List RepoTemplate) : List RepoTemplate :=
  repoTemplates.filter fun repoTemplate =>
    !((templatesToDelete configTemplates repoTemplates).contains repoTemplate)

/-- The update decision for one surviving live template (lines 162–186):
find the configured template with the exact same name; skip when the rendered
file equals the live file content; otherwise update the file. -/
def templateUpdateFor (configTemplates : List ConfigTemplate)
    (repoTemplate : RepoTemplate) : Option TemplateMutation :=
  match configTemplates.find? fun template => template.name == repoTemplate.metaName with
  | none => none
  | some issueTemplate =>
    if issueTemplate.githubTemplateFile == repoTemplate.rawFileContent then
      none
    else
      some (.updateFile repoTemplate.fileName issueTemplate.name
        issueTemplate.githubTemplateFile)

/-- `templatesToAdd` (line 189): configured templates with no exact name
match among the surviving live templates. -/
def templatesToAdd (configTemplates : List ConfigTemplate)
    (remaining : List RepoTemplate) : List ConfigTemplate :=
  configTemplates.filter fun template =>
    !(remaining.any fun repoTemplate => repoTemplate.metaName == template.name)

/-- `path.basename`: the part of a path after the last `/`. -/
def pathBasename (p : String) : String :=
  (p.splitOn "/").getLastD p

/-- `path.extname`: the suffix of the basename from its last `.` (inclusive);
empty when there is no dot or the only dot is the leading character. -/
def pathExtname (p : String) : String :=
  let base := pathBasename p
  let chars := base.toList
  match ((List.range chars.length).filter fun i => chars.getD i ' ' == '.').getLast? with
  | none => ""
  | some 0 => ""
  | some i => String.mk (chars.drop i)

/-- `path.basename(fileName, extension)`: the basename with the given suffix
stripped when present. -/
def pathBasenameStrip (fileName extension : String) : String :=
  let base := pathBasename fileName
  if extension.isEmpty then base
  else if base.endsWith extension then base.dropRight extension.length
  else base

/-- `isFileNameTaken` (line 196): whether a surviving live template already
uses a file name. -/
def isFileNameTaken (remaining : List RepoTemplate) (name : String) : Bool :=
  remaining.any fun template => template.fileName == name

/-- The file-name collision loop of template addition (lines 194–201):
while the candidate name is taken, strip the extension and append
`-<counter>`. Fuel bounds the loop; `remaining.length + 1` candidates always
suffice because the candidates are pairwise distinct. -/
def findAvailableFileName (remaining : List RepoTemplate) (fileName extension : String)
    (suffixCounter fuel : Nat) : String :=
  match fuel with
  | 0 => fileName
  | fuel + 1 =>
    if isFileNameTaken remaining fileName then
      findAvailableFileName remaining
        (pathBasenameStrip fileName extension ++ "-" ++ toString (suffixCounter + 1) ++ extension)
        extension (suffixCounter + 1) fuel
    else fileName

/-- The file name chosen for a newly added template (lines 193–201). -/
def newTemplateFileName (remaining : List RepoTemplate) (template : ConfigTemplate) :
    String :=
  findAvailableFileName remaining (pathBasename template.templateFile)
    (pathExtname template.templateFile) 0 (remaining.length + 1)

/-- The full mutation plan of one repository's template sync, in the order
the command awaits the three phases (lines 148–209): first the deletions
("to free as many file names as possible"), then the updates, then the
additions. -/
def templateSyncPlan (configTemplates : List ConfigTemplate)
    (repoTemplates : List RepoTemplate) : List TemplateMutation :=
  let remaining := remainingTemplates configTemplates repoTemplates
  ((templatesToDelete configTemplates repoTemplates).map fun repoTemplate =>
    .deleteFile repoTemplate.fileName repoTemplate.metaName)
  ++ remaining.filterMap (templateUpdateFor configTemplates)
  ++ ((templatesToAdd configTemplates remaining).map fun template =>
    .createFile (newTemplateFileName remaining template) template.name
      template.githubTemplateFile)

/-! ## Branch protection reconciliation (`lib/commands/repositorySettings.js`
lines 50–113) -/

/-- The `requireReviews` block of a protected-branch configuration; absent
boolean fields are `none`. -/
structure RequireReviews where
  dismissApprovalWhenChanged : Option Bool
  requireCodeOwnerReview : Option Bool
deriving DecidableEq, Repr

/-- The `requireStatusChecks` block; `statusChecks` defaults to `[]` during
validation, `requireBranchUpToDate` may be absent. -/
structure RequireStatusChecks where
  statusChecks : List String
  requireBranchUpToDate : Option Bool
deriving DecidableEq, Repr

/-- One entry of `protectedBranches`. -/
structure BranchConfig where
  name : String
  requireReviews : Option RequireReviews
  requireStatusChecks : Option RequireStatusChecks
deriving DecidableEq, Repr

/-- The complete protection payload sent by `updateBranchProtection`
(lines 71–94): `enforce_admins` is always `false`, `restrictions` always
`null`, and the two optional blocks are filled from the branch configuration. -/
structure ProtectionPayload where
  enforceAdmins : Bool
  requiredPullRequestReviews : Option RequireReviews
  requiredStatusChecks : Option RequireStatusChecks
deriving DecidableEq, Repr

/-- Build the protection payload from a branch configuration (lines 71–88). -/
def protectionPayload (branchConfig : BranchConfig) : ProtectionPayload :=
  { enforceAdmins := false
    requiredStatusChecks := branchConfig.requireStatusChecks.map fun rsc =>
      { statusChecks := rsc.statusChecks
        requireBranchUpToDate := rsc.requireBranchUpToDate }
    requiredPullRequestReviews := branchConfig.requireReviews.map fun rr =>
      { dismissApprovalWhenChanged := rr.dismissApprovalWhenChanged
        requireCodeOwnerReview := rr.requireCodeOwnerReview } }

/-- A live branch. The command only ever reads `name`; `protection` records
the branch's live protection state, which the command never fetches or
compares. -/
structure Branch where
  name : String
  protection : Option ProtectionPayload
deriving DecidableEq, Repr

/-- A branch-protection mutation. -/
inductive BranchMutation where
  | updateProtection (branch : String) (payload : ProtectionPayload)
  | removeProtection (branch : String)
deriving DecidableEq, Repr

/-- The per-branch decision (lines 66–110): a branch with an exact-name
(`===`) entry in the protected-branches configuration gets an unconditional
`updateBranchProtection` call with the full desired payload; every other
branch gets a `removeBranchProtection` call. -/
def branchAction (protectedBranchesConfig : List BranchConfig) (branch : Branch) :
    BranchMutation :=
  match protectedBranchesConfig.find? fun config => config.name == branch.name with
  | some branchConfig => .updateProtection branch.name (protectionPayload branchConfig)
  | none => .removeProtection branch.name

/-- The branch-protection plan for one repository (lines 57–111): nothing is
done when the effective protected-branches configuration is empty; otherwise
every live branch is processed. -/
def branchSyncPlan (protectedBranchesConfig : List BranchConfig)
    (branches : List Branch) : List BranchMutation :=
  if protectedBranchesConfig.length > 0 then
    branches.map (branchAction protectedBranchesConfig)
  else []

/-! ## Team permission reconciliation (`lib/commands/permissions.js`
lines 82–125) -/

/-- The permission a team shall have on a repository (lines 82–91): the
repository's `teamPermissions` entry for the team when the repository is
configured and an exact-name entry exists, otherwise the team's
`defaultPermission`. -/
def repositoryPermission (configTeam : Team) (configRepository : Option RepositoryConfig) :
    Option String :=
  match configRepository with
  | none => configTeam.defaultPermission
  | some repository =>
    match repository.teamPermissions.find? fun teamPermission =>
        teamPermission.teamName == configTeam.name with
    | some configTeamPermission => configTeamPermission.permission
    | none => configTeam.defaultPermission

/-- A team-permission mutation. -/
inductive TeamMutation where
  | setPermission (teamName : String) (permission : String)
  | removePermission (teamName : String)
deriving DecidableEq, Repr

/-- The per-(team, repository) action (lines 93–125): a non-null effective
permission always issues an `addTeamRepo` upsert; a null effective permission
issues a removal only when the team currently has a permission on the
repository (`checkTeamRepo` succeeding; a 404 means nothing to remove). -/
def teamSyncAction (configTeam : Team) (configRepository : Option RepositoryConfig)
    (hasPermission : Bool) : Option TeamMutation :=
  match repositoryPermission configTeam configRepository with
  | some permission => some (.setPermission configTeam.name permission)
  | none =>
    if hasPermission then some (.removePermission configTeam.name) else none

/-! ## Error handling at the deletion call sites -/

/-- An error from the external system, carrying the numeric status
(`err.code` in the legacy client, `error.status` in the rewrite). -/
structure ApiError where
  status : Nat
deriving DecidableEq, Repr

/-- The outcome of one `deleteLabel` call as seen by the labels command
(`issueLabels.js` lines 101–109): the call is not wrapped in any `try`/`catch`,
so every error — 404 included — propagates unchanged. -/
def deleteLabelOutcome (result : Except ApiError Unit) : Except ApiError Unit :=
  result

/-- The outcome of one template `deleteFile` call (`issueTemplates.js`
lines 150–158): again no `try`/`catch`, every error propagates. -/
def deleteTemplateOutcome (result : Except ApiError Unit) : Except ApiError Unit :=
  result

/-- The outcome of one `removeBranchProtection` call
(`repositorySettings.js` lines 96–109): a 404 is swallowed because it means
the branch was not protected; every other error is re-thrown. -/
def removeBranchProtectionOutcome (result : Except ApiError Unit) : Except ApiError Unit :=
  match result with
  | .error error => if error.status == 404 then .ok () else .error error
  | .ok _ => .ok ()

/-- The outcome of the team-permission removal chain (`permissions.js`
lines 108–124): `checkTeamRepo` then `deleteTeamRepo`, with a single `catch`
over the chain that swallows a 404 (the team had no permission) and re-throws
everything else. `deleteResult` is only reached when the check succeeded. -/
def removeTeamPermissionOutcome (checkResult deleteResult : Except ApiError Unit) :
    Except ApiError Unit :=
  let chained : Except ApiError Unit :=
    match checkResult with
    | .error error => .error error
    | .ok _ => deleteResult
  match chained with
  | .error error => if error.status == 404 then .ok () else .error error
  | .ok _ => .ok ()

/-! ## Sequential multi-repository processing (`lib/asyncSequence.js`,
`lib/commands/commandRunner.js`) -/

/-- `asyncSequence` instrumented with the list of elements whose action was
started: the promise chain `elements.reduce((prev, e) => prev.then(() =>
action(e)), resolve(null))` runs the actions one after another and a
rejection skips every remaining `.then`, so the elements after the first
failure are never processed. -/
def asyncSequenceTrace {α ε : Type} (elements : List α) (action : α → Except ε Unit) :
    List α × Option ε :=
  match elements with
  | [] => ([], none)
  | e :: rest =>
    match action e with
    | .error err => ([e], some err)
    | .ok _ =>
      let (attempted, outcome) := asyncSequenceTrace rest action
      (e :: attempted, outcome)

/-- The observable result of `asyncSequence`: `ok` when every action
resolved, otherwise the first rejection. -/
def asyncSequence {α ε : Type} (elements : List α) (action : α → Except ε Unit) :
    Except ε Unit :=
  match (asyncSequenceTrace elements action).2 with
  | none => .ok ()
  | some err => .error err

/-- `commandRunner` (`lib/commands/commandRunner.js`): await the command,
exit 0 on success; on any error log it and exit -1. Modelled as the process
exit code. -/
def commandRunnerExitCode {ε : Type} (command : Except ε Unit) : Int :=
  match command with
  | .ok _ => 0
  | .error _ => -1

/-! ## Mutation phases, for stating execution-order properties -/

/-- Phase of a label mutation in the claimed delete-update-add order. -/
def labelPhaseDUA : LabelMutation → Nat
  | .delete _ => 0
  | .update _ _ _ _ => 1
  | .create _ _ _ => 2

/-- Phase of a label mutation in the add-update-delete order the labels
command actually awaits. -/
def labelPhaseAUD : LabelMutation → Nat
  | .create _ _ _ => 0
  | .update _ _ _ _ => 1
  | .delete _ => 2

/-- Phase of a template mutation in the delete-update-add order. -/
def templatePhaseDUA : TemplateMutation → Nat
  | .deleteFile _ _ => 0
  | .updateFile _ _ _ => 1
  | .createFile _ _ _ => 2

/-- A mutation plan respects a phase order when the phases of its mutations
are non-decreasing along the plan. -/
def phasedInOrder {μ : Type} (phase : μ → Nat) (plan : List μ) : Prop :=
  List.Sorted (· ≤ ·) (plan.map phase)

/-- A live repository label equal to a configured label, field by field
("actual state equals desired state" for one label). -/
def labelAsRepo (label : ConfigLabel) : RepoLabel :=
  { name := label.name, color := label.color, description := label.description }

/-! ## Helper lemmas: ASCII case folding -/

theorem char_toNat_ofNat (n : Nat) (h : n < 55296) : (Char.ofNat n).toNat = n := by
  simp only [Char.ofNat]
  rw [dif_pos (Or.inl h : Nat.isValidChar n)]
  rfl

theorem char_ofNat_toNat (c : Char) : Char.ofNat c.toNat = c := by
  apply Char.ext
  simp only [Char.ofNat]
  rw [dif_pos (show Nat.isValidChar c.toNat from c.valid)]
  apply UInt32.ext
  rfl

theorem char_toLower_toUpper (c : Char) : c.toUpper.toLower = c.toLower := by
  simp only [Char.toUpper, Char.toLower]
  by_cases h : c.toNat ≥ 97 ∧ c.toNat ≤ 122
  · rw [if_pos h]
    have hv : (Char.ofNat (c.toNat - 32)).toNat = c.toNat - 32 :=
      char_toNat_ofNat _ (by omega)
    rw [hv]
    rw [if_pos (show c.toNat - 32 ≥ 65 ∧ c.toNat - 32 ≤ 90 from by omega)]
    rw [if_neg (show ¬(c.toNat ≥ 65 ∧ c.toNat ≤ 90) from by omega)]
    rw [show c.toNat - 32 + 32 = c.toNat from by omega]
    exact char_ofNat_toNat c
  · rw [if_neg h]

theorem char_toLower_idem (c : Char) : c.toLower.toLower = c.toLower := by
  simp only [Char.toLower]
  by_cases h : c.toNat ≥ 65 ∧ c.toNat ≤ 90
  · rw [if_pos h]
    have hv : (Char.ofNat (c.toNat + 32)).toNat = c.toNat + 32 :=
      char_toNat_ofNat _ (by omega)
    rw [hv]
    rw [if_neg (show ¬(c.toNat + 32 ≥ 65 ∧ c.toNat + 32 ≤ 90) from by omega)]
  · rw [if_neg h, if_neg h]

theorem string_toLower_toUpper (s : String) : s.toUpper.toLower = s.toLower := by
  simp only [String.toLower, String.toUpper, String.map_eq, List.map_map]
  rw [show Char.toLower ∘ Char.toUpper = Char.toLower from funext char_toLower_toUpper]

theorem string_toLower_idem (s : String) : s.toLower.toLower = s.toLower := by
  simp only [String.toLower, String.map_eq, List.map_map]
  rw [show Char.toLower ∘ Char.toLower = Char.toLower from funext char_toLower_idem]

/-- Evaluation form of `String.toLower` (the recursor-friendly `List.map`
shape, used to compute with string literals in proofs). -/
theorem string_toLower_data (s : String) :
    s.toLower = String.mk (s.data.map Char.toLower) := by
  simp only [String.toLower]
  exact String.map_eq Char.toLower s

/-! ## Helper lemmas: permission parsing -/

theorem parsePermissionString_eq_of_toLower_eq {s t : String}
    (hst : s.toLower = t.toLower) (h : s.toLower ∈ allowedPermissionWords) :
    parsePermissionString (some s) = parsePermissionString (some t) := by
  simp only [allowedPermissionWords, List.mem_cons, List.not_mem_nil, or_false] at h
  rcases h with h|h|h|h|h|h <;>
    simp only [parsePermissionString] <;> rw [← hst, h] <;> rfl

/-! ## C5: parsePermissionString -/

/-- C5: `parsePermissionString` maps `null` to `null`; it maps the spellings
`none`, `read`/`pull`, `write`/`push` and `admin`, compared after
lower-casing (hence case-insensitively), to the canonical permissions; its
result is invariant under upper- or lower-casing the input for every
recognised spelling; and every other string fails with the error message
naming the offending value and the allowed set. -/
theorem c5_parse_permission_spec :
    parsePermissionString none = .ok none
    ∧ (∀ s : String, s.toLower = "none" → parsePermissionString (some s) = .ok none)
    ∧ (∀ s : String, s.toLower = "read" ∨ s.toLower = "pull" →
        parsePermissionString (some s) = .ok (some "pull"))
    ∧ (∀ s : String, s.toLower = "write" ∨ s.toLower = "push" →
        parsePermissionString (some s) = .ok (some "push"))
    ∧ (∀ s : String, s.toLower = "admin" →
        parsePermissionString (some s) = .ok (some "admin"))
    ∧ (∀ s : String, s.toLower ∈ allowedPermissionWords →
        parsePermissionString (some s) = parsePermissionString (some s.toUpper)
          ∧ parsePermissionString (some s) = parsePermissionString (some s.toLower))
    ∧ (∀ s : String, s.toLower ∉ allowedPermissionWords →
        parsePermissionString (some s) = .error (invalidPermissionMessage s)) := by
  refine ⟨rfl, ?_, ?_, ?_, ?_, ?_, ?_⟩
  · intro s h
    simp only [parsePermissionString]
    rw [h]
    rfl
  · intro s h
    rcases h with h | h <;> simp only [parsePermissionString] <;> rw [h] <;> rfl
  · intro s h
    rcases h with h | h <;> simp only [parsePermissionString] <;> rw [h] <;> rfl
  · intro s h
    simp only [parsePermissionString]
    rw [h]
    rfl
  · intro s h
    constructor
    · exact parsePermissionString_eq_of_toLower_eq (string_toLower_toUpper s).symm h
    · exact parsePermissionString_eq_of_toLower_eq (string_toLower_idem s).symm h
  · intro s h
    simp only [allowedPermissionWords, List.mem_cons, List.not_mem_nil, or_false,
      not_or] at h
    obtain ⟨h1, h2, h3, h4, h5, h6⟩ := h
    simp only [parsePermissionString]

/-- Witness for C5 at concrete inputs. -/
theorem c5_parse_permission_spec_witness :
    parsePermissionString (some "READ") = .ok (some "pull")
    ∧ parsePermissionString (some "Admin") = parsePermissionString (some ("Admin".toUpper))
    ∧ parsePermissionString (some "maintain") = .error (invalidPermissionMessage "maintain") := by
  obtain ⟨-, -, hread, -, -, hcase, herr⟩ := c5_parse_permission_spec
  refine ⟨hread "READ" (Or.inl ?_), (hcase "Admin" ?_).1, herr "maintain" ?_⟩
  · rw [string_toLower_data]; rfl
  · rw [string_toLower_data]; simp [allowedPermissionWords]
  · rw [string_toLower_data]; simp [allowedPermissionWords]

/-! ## Helper lemmas: mutation plans -/

/-- Phases of a three-block concatenation are sorted when each block is
phase-constant and the block phases are ordered. -/
theorem sorted_map_append3 {μ : Type} (phase : μ → Nat) (l₁ l₂ l₃ : List μ)
    (a b c : Nat) (hab : a ≤ b) (hbc : b ≤ c)
    (h₁ : ∀ x ∈ l₁, phase x = a) (h₂ : ∀ x ∈ l₂, phase x = b)
    (h₃ : ∀ x ∈ l₃, phase x = c) :
    List.Sorted (· ≤ ·) ((l₁ ++ l₂ ++ l₃).map phase) := by
  have const_sorted : ∀ (l : List μ) (v : Nat), (∀ x ∈ l, phase x = v) →
      List.Sorted (· ≤ ·) (l.map phase) := by
    intro l v hv
    refine List.pairwise_map.mpr (List.pairwise_of_forall_mem_list ?_)
    intro x hx y hy
    rw [hv x hx, hv y hy]
  simp only [List.map_append, List.Sorted]
  refine List.pairwise_append.mpr ⟨List.pairwise_append.mpr
    ⟨const_sorted l₁ a h₁, const_sorted l₂ b h₂, ?_⟩, const_sorted l₃ c h₃, ?_⟩
  · intro x hx y hy
    obtain ⟨x', hx', rfl⟩ := List.mem_map.mp hx
    obtain ⟨y', hy', rfl⟩ := List.mem_map.mp hy
    rw [h₁ x' hx', h₂ y' hy']
    exact hab
  · intro x hx y hy
    obtain ⟨y', hy', rfl⟩ := List.mem_map.mp hy
    rw [h₃ y' hy']
    rcases List.mem_append.mp hx with hx | hx
    · obtain ⟨x', hx', rfl⟩ := List.mem_map.mp hx
      rw [h₁ x' hx']
      omega
    · obtain ⟨x', hx', rfl⟩ := List.mem_map.mp hx
      rw [h₂ x' hx']
      exact hbc

/-- Shape of a label mutation produced by the update phase. -/
theorem labelUpdateFor_eq_some {expected : List ConfigLabel} {repoLabel : RepoLabel}
    {m : LabelMutation} (h : labelUpdateFor expected repoLabel = some m) :
    ∃ issueLabel,
      expected.find? (fun label => labelNamesMatch label.name repoLabel.name)
        = some issueLabel
      ∧ m = .update repoLabel.name repoLabel.name
          (descriptionOrNull issueLabel.description) issueLabel.color := by
  unfold labelUpdateFor at h
  dsimp only at h
  split at h
  · exact absurd h (by simp)
  · next issueLabel hf =>
    split at h
    · exact absurd h (by simp)
    · exact ⟨issueLabel, hf, (Option.some_inj.mp h).symm⟩

/-- Shape of a template mutation produced by the update phase. -/
theorem templateUpdateFor_eq_some {configTemplates : List ConfigTemplate}
    {repoTemplate : RepoTemplate} {m : TemplateMutation}
    (h : templateUpdateFor configTemplates repoTemplate = some m) :
    ∃ issueTemplate,
      configTemplates.find? (fun template => template.name == repoTemplate.metaName)
        = some issueTemplate
      ∧ m = .updateFile repoTemplate.fileName issueTemplate.name
          issueTemplate.githubTemplateFile := by
  unfold templateUpdateFor at h
  split at h
  · exact absurd h (by simp)
  · next issueTemplate hf =>
    split at h
    · exact absurd h (by simp)
    · exact ⟨issueTemplate, hf, (Option.some_inj.mp h).symm⟩

/-! ## C1: execution order of the mutation phases -/

/-- C1 (amended): template reconciliation awaits its phases in the order
deletions, then updates, then additions; label reconciliation, by contrast,
awaits additions first, then updates, then deletions. -/
theorem c1_mutation_phase_order :
    (∀ (configTemplates : List ConfigTemplate) (repoTemplates : List RepoTemplate),
      phasedInOrder templatePhaseDUA (templateSyncPlan configTemplates repoTemplates))
    ∧ (∀ (expected : List ConfigLabel) (repoLabels : List RepoLabel),
      phasedInOrder labelPhaseAUD (labelSyncPlan expected repoLabels)) := by
  constructor
  · intro configTemplates repoTemplates
    refine sorted_map_append3 templatePhaseDUA _ _ _ 0 1 2 (by omega) (by omega) ?_ ?_ ?_
    · intro x hx
      obtain ⟨t, -, rfl⟩ := List.mem_map.mp hx
      rfl
    · intro x hx
      obtain ⟨rt, -, he⟩ := List.mem_filterMap.mp hx
      obtain ⟨it, -, rfl⟩ := templateUpdateFor_eq_some he
      rfl
    · intro x hx
      obtain ⟨t, -, rfl⟩ := List.mem_map.mp hx
      rfl
  · intro expected repoLabels
    refine sorted_map_append3 labelPhaseAUD _ _ _ 0 1 2 (by omega) (by omega) ?_ ?_ ?_
    · intro x hx
      obtain ⟨l, -, rfl⟩ := List.mem_map.mp hx
      rfl
    · intro x hx
      obtain ⟨rl, -, he⟩ := List.mem_filterMap.mp hx
      obtain ⟨il, -, rfl⟩ := labelUpdateFor_eq_some he
      rfl
    · intro x hx
      obtain ⟨l, -, rfl⟩ := List.mem_map.mp hx
      rfl

/-- C1 counterexample: on a repository with one obsolete live label and one
new configured label, the labels command's plan performs the addition before
the deletion, so the claimed delete-update-add order does not hold for label
reconciliation. -/
theorem c1_counterexample :
    labelSyncPlan [⟨"new", "aaa111", none⟩] [⟨"old", "bbb222", none⟩]
      = [.create "new" none "aaa111", .delete "old"]
    ∧ ¬ phasedInOrder labelPhaseDUA
        (labelSyncPlan [⟨"new", "aaa111", none⟩] [⟨"old", "bbb222", none⟩]) := by
  have hplan : labelSyncPlan [⟨"new", "aaa111", none⟩] [⟨"old", "bbb222", none⟩]
      = [.create "new" none "aaa111", .delete "old"] := by
    simp [labelSyncPlan, labelsToAdd, labelsToDelete, labelUpdateFor, labelNamesMatch,
      descriptionOrNull, string_toLower_data]
  refine ⟨hplan, ?_⟩
  rw [phasedInOrder, hplan]
  simp [labelPhaseDUA, List.Sorted]

/-! ## C2: key matching per resource kind -/

/-- C2 (amended): reconciliation keys are compared case-insensitively for
issue labels, but exactly (case-sensitively) for issue templates, for branch
names and for team names. -/
theorem c2_key_matching :
    (∀ a b : String, labelNamesMatch a b = true ↔ a.toLower = b.toLower)
    ∧ (∀ (expected : List ConfigLabel) (repoLabels : List RepoLabel)
        (repoLabel : RepoLabel),
        repoLabel ∈ labelsToDelete expected repoLabels ↔
          repoLabel ∈ repoLabels ∧
            ∀ label ∈ expected, label.name.toLower ≠ repoLabel.name.toLower)
    ∧ (∀ (configTemplates : List ConfigTemplate) (repoTemplates : List RepoTemplate)
        (repoTemplate : RepoTemplate),
        repoTemplate ∈ templatesToDelete configTemplates repoTemplates ↔
          repoTemplate ∈ repoTemplates ∧
            ∀ template ∈ configTemplates, template.name ≠ repoTemplate.metaName)
    ∧ (∀ (protectedBranchesConfig : List BranchConfig) (branch : Branch),
        branchAction protectedBranchesConfig branch = .removeProtection branch.name ↔
          ∀ config ∈ protectedBranchesConfig, config.name ≠ branch.name)
    ∧ (∀ (team : Team) (repository : RepositoryConfig),
        (∀ teamPermission ∈ repository.teamPermissions,
            teamPermission.teamName ≠ team.name) →
          repositoryPermission team (some repository) = team.defaultPermission) := by
  refine ⟨?_, ?_, ?_, ?_, ?_⟩
  · intro a b
    simp [labelNamesMatch]
  · intro expected repoLabels repoLabel
    simp [labelsToDelete, List.mem_filter, labelNamesMatch]
  · intro configTemplates repoTemplates repoTemplate
    simp [templatesToDelete, List.mem_filter]
  · intro protectedBranchesConfig branch
    cases hf : protectedBranchesConfig.find? fun config => config.name == branch.name with
    | none =>
      have hf' : ∀ config ∈ protectedBranchesConfig, ¬(config.name == branch.name) = true :=
        List.find?_eq_none.mp hf
      simp only [branchAction, hf]
      constructor
      · intro _ config hc
        simpa using hf' config hc
      · intro _
        trivial
    | some branchConfig =>
      have hname : branchConfig.name = branch.name := by
        simpa using List.find?_some hf
      have hmem : branchConfig ∈ protectedBranchesConfig := List.mem_of_find?_eq_some hf
      simp only [branchAction, hf]
      constructor
      · intro h
        exact absurd h (by simp)
      · intro hall
        exact absurd hname (hall branchConfig hmem)
  · intro team repository hnone
    have hf : repository.teamPermissions.find?
        (fun teamPermission => teamPermission.teamName == team.name) = none := by
      rw [List.find?_eq_none]
      intro tp htp
      simpa using hnone tp htp
    simp only [repositoryPermission, hf]

/-- C2 counterexample: a configured template named `Bug Report` and a live
template whose front-matter name is `bug report` differ only in letter case,
yet template reconciliation schedules the live one for deletion and the
configured one for re-addition instead of treating them as the same
template — template names are compared with `===`, not case-insensitively. -/
theorem c2_counterexample :
    templatesToDelete [⟨"Bug Report", "desc", "./bug.md", "NEW"⟩]
        [⟨"bug.md", "sha", "bug report", "OLD"⟩]
      = [⟨"bug.md", "sha", "bug report", "OLD"⟩]
    ∧ templatesToAdd [⟨"Bug Report", "desc", "./bug.md", "NEW"⟩]
        (remainingTemplates [⟨"Bug Report", "desc", "./bug.md", "NEW"⟩]
          [⟨"bug.md", "sha", "bug report", "OLD"⟩])
      = [⟨"Bug Report", "desc", "./bug.md", "NEW"⟩]
    ∧ "Bug Report".toLower = "bug report".toLower := by
  refine ⟨by decide, by decide, ?_⟩
  rw [string_toLower_data, string_toLower_data]
  rfl

/-- Witness for C2 at concrete inputs. -/
theorem c2_key_matching_witness :
    repositoryPermission ⟨"Core", some "admin"⟩
        (some ⟨"svc", [⟨"Other", some "pull"⟩], none, none⟩) = some "admin"
    ∧ (labelNamesMatch "Bug" "bUG" = true ↔ "Bug".toLower = "bUG".toLower) := by
  obtain ⟨ha, -, -, -, he⟩ := c2_key_matching
  exact ⟨he ⟨"Core", some "admin"⟩ ⟨"svc", [⟨"Other", some "pull"⟩], none, none⟩
    (by decide), ha "Bug" "bUG"⟩

/-! ## C7: effective team permission -/

/-- C7: the effective team permission on a repository is the repository's
`teamPermissions` entry for the team when one is present, and the team's
org-wide `defaultPermission` otherwise; a repository with no entry for a team
leaves that team's permission at the default. -/
theorem c7_team_permission_resolution :
    (∀ team : Team, repositoryPermission team none = team.defaultPermission)
    ∧ (∀ (team : Team) (repository : RepositoryConfig) (entry : TeamPermission),
        repository.teamPermissions.find?
          (fun teamPermission => teamPermission.teamName == team.name) = some entry →
        repositoryPermission team (some repository) = entry.permission)
    ∧ (∀ (team : Team) (repository : RepositoryConfig),
        (∀ teamPermission ∈ repository.teamPermissions,
            teamPermission.teamName ≠ team.name) →
        repositoryPermission team (some repository) = team.defaultPermission) := by
  refine ⟨fun team => rfl, ?_, ?_⟩
  · intro team repository entry hf
    simp only [repositoryPermission, hf]
  · intro team repository hnone
    have hf : repository.teamPermissions.find?
        (fun teamPermission => teamPermission.teamName == team.name) = none := by
      rw [List.find?_eq_none]
      intro tp htp
      simpa using hnone tp htp
    simp only [repositoryPermission, hf]

/-- Witness for C7: the spec's scenario — team `Core` with default `admin`,
repository `svc` overriding `Core` to `pull`, repository `other` with no
override. -/
theorem c7_team_permission_resolution_witness :
    repositoryPermission ⟨"Core", some "admin"⟩
        (some ⟨"svc", [⟨"Core", some "pull"⟩], none, none⟩) = some "pull"
    ∧ repositoryPermission ⟨"Core", some "admin"⟩ none = some "admin"
    ∧ repositoryPermission ⟨"Core", some "admin"⟩
        (some ⟨"other", [], none, none⟩) = some "admin" := by
  obtain ⟨hdefault, hentry, hmiss⟩ := c7_team_permission_resolution
  exact ⟨hentry ⟨"Core", some "admin"⟩ ⟨"svc", [⟨"Core", some "pull"⟩], none, none⟩
      ⟨"Core", some "pull"⟩ (by decide),
    hdefault ⟨"Core", some "admin"⟩,
    hmiss ⟨"Core", some "admin"⟩ ⟨"other", [], none, none⟩ (by decide)⟩

/-! ## C10: label updates never rename -/

/-- C10: every update mutation in a label plan sends the live repository
label's current name as both the old (`oldname`/`current_name`) and the new
(`name`) name, so an update can change only description and color, and a
configured label whose name differs from the live one only in letter case
keeps the live casing. -/
theorem c10_label_update_preserves_name :
    ∀ (expected : List ConfigLabel) (repoLabels : List RepoLabel)
      (currentName newName : String) (description : Option String) (color : String),
      LabelMutation.update currentName newName description color
          ∈ labelSyncPlan expected repoLabels →
      currentName = newName
        ∧ ∃ repoLabel ∈ repoLabels,
            currentName = repoLabel.name ∧ newName = repoLabel.name := by
  intro expected repoLabels currentName newName description color hmem
  rcases List.mem_append.mp hmem with hmem | hmem
  · rcases List.mem_append.mp hmem with hmem | hmem
    · obtain ⟨l, -, h⟩ := List.mem_map.mp hmem
      exact absurd h (by simp)
    · obtain ⟨repoLabel, hrl, he⟩ := List.mem_filterMap.mp hmem
      obtain ⟨issueLabel, -, hshape⟩ := labelUpdateFor_eq_some he
      simp only [LabelMutation.update.injEq] at hshape
      obtain ⟨h1, h2, -, -⟩ := hshape
      exact ⟨h1.trans h2.symm, repoLabel, hrl, h1, h2⟩
  · obtain ⟨l, -, h⟩ := List.mem_map.mp hmem
    exact absurd h (by simp)

/-- Witness for C10: a configured label `Bug` matching the live label `bug`
(differing only in case) with a different color yields an update that keeps
the live name `bug` on both name fields. -/
theorem c10_label_update_preserves_name_witness :
    ("bug" : String) = "bug"
    ∧ ∃ repoLabel ∈ [(⟨"bug", "bbbbbb", none⟩ : RepoLabel)],
        ("bug" : String) = repoLabel.name ∧ ("bug" : String) = repoLabel.name := by
  have hplan : labelSyncPlan [⟨"Bug", "aaaaaa", none⟩] [⟨"bug", "bbbbbb", none⟩]
      = [.update "bug" "bug" none "aaaaaa"] := by
    simp [labelSyncPlan, labelsToAdd, labelsToDelete, labelUpdateFor, labelNamesMatch,
      descriptionOrNull, string_toLower_data]
  exact c10_label_update_preserves_name [⟨"Bug", "aaaaaa", none⟩]
    [⟨"bug", "bbbbbb", none⟩] "bug" "bug" none "aaaaaa"
    (by rw [hplan]; exact List.mem_singleton_self _)

/-! ## C8: 404 handling at the deletion call sites -/

/-- C8 (amended): branch-protection removal and the team-permission removal
chain swallow a 404 from the external system and re-raise every other
status; label deletion and template deletion are not wrapped in any catch,
so every error — 404 included — propagates unchanged. -/
theorem c8_deletion_error_handling :
    (removeBranchProtectionOutcome (.error ⟨404⟩) = .ok ()
      ∧ ∀ e : ApiError, e.status ≠ 404 →
          removeBranchProtectionOutcome (.error e) = .error e)
    ∧ ((∀ deleteResult, removeTeamPermissionOutcome (.error ⟨404⟩) deleteResult = .ok ())
      ∧ removeTeamPermissionOutcome (.ok ()) (.error ⟨404⟩) = .ok ()
      ∧ ∀ e : ApiError, e.status ≠ 404 →
          removeTeamPermissionOutcome (.ok ()) (.error e) = .error e)
    ∧ (∀ result : Except ApiError Unit, deleteLabelOutcome result = result)
    ∧ (∀ result : Except ApiError Unit, deleteTemplateOutcome result = result) := by
  refine ⟨⟨rfl, ?_⟩, ⟨fun _ => rfl, rfl, ?_⟩, fun _ => rfl, fun _ => rfl⟩
  · intro e he
    simp [removeBranchProtectionOutcome, he]
  · intro e he
    simp [removeTeamPermissionOutcome, he]

/-- C8 counterexample: a 404 error on an issue-label deletion is not
swallowed — the labels command has no catch around `deleteLabel`, so the 404
propagates instead of being treated as success. -/
theorem c8_counterexample :
    deleteLabelOutcome (.error ⟨404⟩) = .error ⟨404⟩
    ∧ deleteLabelOutcome (.error ⟨404⟩) ≠ .ok () := by
  exact ⟨rfl, by simp [deleteLabelOutcome]⟩

/-- Witness for C8 at concrete inputs. -/
theorem c8_deletion_error_handling_witness :
    removeBranchProtectionOutcome (.error ⟨500⟩) = .error ⟨500⟩
    ∧ removeTeamPermissionOutcome (.ok ()) (.error ⟨503⟩) = .error ⟨503⟩ := by
  obtain ⟨⟨-, hbranch⟩, ⟨-, -, hteam⟩, -, -⟩ := c8_deletion_error_handling
  exact ⟨hbranch ⟨500⟩ (by decide), hteam ⟨503⟩ (by decide)⟩

/-! ## C9: a repository failure aborts the whole run -/

/-- C9 (amended): in the multi-repository commands a repository whose
reconciliation fails rejects the whole `asyncSequence` chain — the failing
repository is the last one processed, the remaining repositories are never
attempted, and `commandRunner` exits the process with code -1 instead of
continuing. -/
theorem c9_error_aborts_run :
    ∀ {α ε : Type} (action : α → Except ε Unit) (xs ys : List α) (x : α) (err : ε),
      (∀ y ∈ xs, action y = .ok ()) → action x = .error err →
      asyncSequenceTrace (xs ++ x :: ys) action = (xs ++ [x], some err)
        ∧ commandRunnerExitCode (asyncSequence (xs ++ x :: ys) action) = -1 := by
  intro α ε action xs ys x err hok hx
  have htrace : ∀ l : List α, (∀ y ∈ l, action y = .ok ()) →
      asyncSequenceTrace (l ++ x :: ys) action = (l ++ [x], some err) := by
    intro l
    induction l with
    | nil =>
      intro _
      simp [asyncSequenceTrace, hx]
    | cons a rest ih =>
      intro h
      have ha : action a = .ok () := h a (by simp)
      have ih' := ih fun y hy => h y (by simp [hy])
      simp [asyncSequenceTrace, ha, ih']
  refine ⟨htrace xs hok, ?_⟩
  simp [asyncSequence, commandRunnerExitCode, htrace xs hok]

/-- C9 counterexample: with two repositories where the first one fails, the
sequence stops after the first repository (the second is never attempted —
the trace `[0]` is not the full list `[0, 1]`) and the command exits with
code -1; processing does not continue for the remaining repositories. -/
theorem c9_counterexample :
    asyncSequenceTrace [0, 1]
        (fun n : Nat => if n == 0 then Except.error "boom" else .ok ())
      = ([0], some "boom")
    ∧ ([0] : List Nat) ≠ [0, 1]
    ∧ commandRunnerExitCode (asyncSequence [0, 1]
        (fun n : Nat => if n == 0 then Except.error "boom" else .ok ())) = -1 := by
  exact ⟨rfl, by decide, rfl⟩

/-- Witness for C9 at concrete inputs. -/
theorem c9_error_aborts_run_witness :
    asyncSequenceTrace ([10] ++ 20 :: [30])
        (fun n : Nat => if n == 20 then Except.error "fail" else .ok ())
      = ([10] ++ [20], some "fail")
    ∧ commandRunnerExitCode (asyncSequence ([10] ++ 20 :: [30])
        (fun n : Nat => if n == 20 then Except.error "fail" else .ok ())) = -1 := by
  exact c9_error_aborts_run _ [10] [30] 20 "fail" (by simp) rfl

/-! ## Helper lemmas: first-match lookups under distinct keys -/

/-- Under case-insensitively distinct label names, the first case-insensitive
match for a member's own name is that member. -/
theorem find?_label_self {expected : List ConfigLabel} {l : ConfigLabel}
    (hmem : l ∈ expected)
    (hdist : expected.Pairwise fun a b => a.name.toLower ≠ b.name.toLower) :
    expected.find? (fun label => labelNamesMatch label.name l.name) = some l := by
  induction expected with
  | nil => cases hmem
  | cons a rest ih =>
    rcases List.mem_cons.mp hmem with rfl | hmem'
    · exact List.find?_cons_of_pos _ (by simp [labelNamesMatch])
    · have hne : a.name.toLower ≠ l.name.toLower :=
        (List.pairwise_cons.mp hdist).1 l hmem'
      rw [List.find?_cons_of_neg _ (by simp [labelNamesMatch, hne])]
      exact ih hmem' (List.pairwise_cons.mp hdist).2

/-- Under exactly distinct template names, the first exact match for a
member's own name is that member. -/
theorem find?_template_self {configTemplates : List ConfigTemplate} {t : ConfigTemplate}
    (hmem : t ∈ configTemplates)
    (hdist : configTemplates.Pairwise fun a b => a.name ≠ b.name) :
    configTemplates.find? (fun template => template.name == t.name) = some t := by
  induction configTemplates with
  | nil => cases hmem
  | cons a rest ih =>
    rcases List.mem_cons.mp hmem with rfl | hmem'
    · exact List.find?_cons_of_pos _ (by simp)
    · have hne : a.name ≠ t.name := (List.pairwise_cons.mp hdist).1 t hmem'
      rw [List.find?_cons_of_neg _ (by simp [hne])]
      exact ih hmem' (List.pairwise_cons.mp hdist).2

/-! ## C3: converged state and write calls -/

/-- C3 (amended): label and template reconciliation are idempotent — when
the live state equals the desired state (and the desired keys are distinct;
for labels the desired colors must be lower-case, as org-level labels are
after reading), the plan is empty, with items skipped by content comparison.
Branch-protection and team-permission reconciliation, by contrast, issue
their write call unconditionally whenever a protection/permission is
configured, even on a converged system; only a null team permission with no
existing live permission stays a no-op. -/
theorem c3_converged_writes :
    (∀ (expected : List ConfigLabel),
      expected.Pairwise (fun a b => a.name.toLower ≠ b.name.toLower) →
      (∀ l ∈ expected, l.color.toLower = l.color) →
      labelSyncPlan expected (expected.map labelAsRepo) = [])
    ∧ (∀ (configTemplates : List ConfigTemplate) (repoTemplates : List RepoTemplate),
      configTemplates.Pairwise (fun a b => a.name ≠ b.name) →
      (∀ rt ∈ repoTemplates, ∃ t ∈ configTemplates,
        rt.metaName = t.name ∧ rt.rawFileContent = t.githubTemplateFile) →
      (∀ t ∈ configTemplates, ∃ rt ∈ repoTemplates, rt.metaName = t.name) →
      templateSyncPlan configTemplates repoTemplates = [])
    ∧ (∀ (protectedBranchesConfig : List BranchConfig) (branches : List Branch)
        (branch : Branch) (branchConfig : BranchConfig),
      branch ∈ branches →
      protectedBranchesConfig.find? (fun config => config.name == branch.name)
        = some branchConfig →
      BranchMutation.updateProtection branch.name (protectionPayload branchConfig)
        ∈ branchSyncPlan protectedBranchesConfig branches)
    ∧ (∀ (configTeam : Team) (configRepository : Option RepositoryConfig)
        (hasPermission : Bool) (permission : String),
      repositoryPermission configTeam configRepository = some permission →
      teamSyncAction configTeam configRepository hasPermission
        = some (.setPermission configTeam.name permission))
    ∧ (∀ (configTeam : Team) (configRepository : Option RepositoryConfig),
      repositoryPermission configTeam configRepository = none →
      teamSyncAction configTeam configRepository false = none) := by
  refine ⟨?_, ?_, ?_, ?_, ?_⟩
  · intro expected hdist hlower
    have hadd : labelsToAdd expected (expected.map labelAsRepo) = [] := by
      rw [labelsToAdd, List.filter_eq_nil_iff]
      intro l hl
      simp only [Bool.not_eq_true', Bool.not_eq_false]
      exact List.any_eq_true.mpr ⟨labelAsRepo l, List.mem_map_of_mem _ hl,
        by simp [labelNamesMatch, labelAsRepo]⟩
    have hupd : (expected.map labelAsRepo).filterMap (labelUpdateFor expected) = [] := by
      rw [List.filterMap_eq_nil_iff]
      intro rl hrl
      obtain ⟨l, hl, rfl⟩ := List.mem_map.mp hrl
      have hfind : expected.find?
          (fun label => labelNamesMatch label.name (labelAsRepo l).name) = some l := by
        simpa [labelAsRepo] using find?_label_self hl hdist
      unfold labelUpdateFor
      rw [hfind]
      dsimp only
      rw [if_pos]
      simp [labelAsRepo, hlower l hl]
    have hdel : labelsToDelete expected (expected.map labelAsRepo) = [] := by
      rw [labelsToDelete, List.filter_eq_nil_iff]
      intro rl hrl
      obtain ⟨l, hl, rfl⟩ := List.mem_map.mp hrl
      simp only [Bool.not_eq_true', Bool.not_eq_false]
      exact List.any_eq_true.mpr ⟨l, hl, by simp [labelNamesMatch, labelAsRepo]⟩
    rw [labelSyncPlan, hadd, hupd, hdel]
    rfl
  · intro configTemplates repoTemplates hdist hmatch hcover
    have hdel : templatesToDelete configTemplates repoTemplates = [] := by
      rw [templatesToDelete, List.filter_eq_nil_iff]
      intro rt hrt
      obtain ⟨t, ht, hname, -⟩ := hmatch rt hrt
      simp only [Bool.not_eq_true', Bool.not_eq_false]
      exact List.any_eq_true.mpr ⟨t, ht, by simp [hname]⟩
    have hrem : remainingTemplates configTemplates repoTemplates = repoTemplates := by
      rw [remainingTemplates, hdel]
      simp
    have hupd : repoTemplates.filterMap (templateUpdateFor configTemplates) = [] := by
      rw [List.filterMap_eq_nil_iff]
      intro rt hrt
      obtain ⟨t, ht, hname, hcontent⟩ := hmatch rt hrt
      have hfind : configTemplates.find?
          (fun template => template.name == rt.metaName) = some t := by
        rw [hname]
        exact find?_template_self ht hdist
      unfold templateUpdateFor
      rw [hfind]
      dsimp only
      rw [if_pos (by simp [hcontent])]
    have hadd : templatesToAdd configTemplates repoTemplates = [] := by
      rw [templatesToAdd, List.filter_eq_nil_iff]
      intro t ht
      obtain ⟨rt, hrt, hname⟩ := hcover t ht
      simp only [Bool.not_eq_true', Bool.not_eq_false]
      exact List.any_eq_true.mpr ⟨rt, hrt, by simp [hname]⟩
    rw [templateSyncPlan]
    rw [hrem, hdel, hupd, hadd]
    rfl
  · intro protectedBranchesConfig branches branch branchConfig hbranch hfind
    have hne : protectedBranchesConfig ≠ [] := by
      intro h
      rw [h] at hfind
      exact absurd hfind (by simp)
    rw [branchSyncPlan, if_pos (by
      cases protectedBranchesConfig with
      | nil => exact absurd rfl hne
      | cons a l => simp)]
    refine List.mem_map.mpr ⟨branch, hbranch, ?_⟩
    simp only [branchAction, hfind]
  · intro configTeam configRepository hasPermission permission hperm
    unfold teamSyncAction
    rw [hperm]
  · intro configTeam configRepository hperm
    unfold teamSyncAction
    rw [hperm]
    rfl

/-- C3 counterexample: a live branch whose protection already equals the
desired payload still receives an `updateBranchProtection` call — branch
protection reconciliation issues its write without comparing the live state,
so a converged system is not left without write calls. -/
theorem c3_counterexample :
    branchSyncPlan [⟨"main", none, some ⟨["ci"], some true⟩⟩]
        [⟨"main", some (protectionPayload ⟨"main", none, some ⟨["ci"], some true⟩⟩)⟩]
      = [.updateProtection "main" (protectionPayload ⟨"main", none, some ⟨["ci"], some true⟩⟩)]
    ∧ branchSyncPlan [⟨"main", none, some ⟨["ci"], some true⟩⟩]
        [⟨"main", some (protectionPayload ⟨"main", none, some ⟨["ci"], some true⟩⟩)⟩]
      ≠ [] := by
  refine ⟨by decide, by decide⟩

/-- Witness for C3 at concrete inputs: a converged one-label repository gets
an empty plan, and a configured team permission always yields an upsert. -/
theorem c3_converged_writes_witness :
    labelSyncPlan [⟨"bug", "ff0000", none⟩]
        ([⟨"bug", "ff0000", none⟩].map labelAsRepo) = []
    ∧ teamSyncAction ⟨"Core", some "admin"⟩ none true
      = some (.setPermission "Core" "admin") := by
  obtain ⟨hlabels, -, -, hteam, -⟩ := c3_converged_writes
  refine ⟨hlabels [⟨"bug", "ff0000", none⟩] (by simp) ?_, hteam _ none true "admin" rfl⟩
  intro l hl
  simp only [List.mem_singleton] at hl
  subst hl
  rw [string_toLower_data]
  rfl

/-! ## Helper lemmas: the configuration reader -/

theorem finalRepositoryLabels_name (loweredOrgLabels : List ConfigLabel)
    (repository : RepositoryConfig) :
    (finalRepositoryLabels loweredOrgLabels repository).name = repository.name := by
  unfold finalRepositoryLabels
  split <;> rfl

/-- Successful reading decomposed: both validation passes succeeded and the
result is the final state computed from the input. -/
theorem readConfigLabels_ok {config result : OrgConfig}
    (h : readConfigLabels config = .ok result) :
    validateIssueLabelList config.issueLabels = .ok ()
    ∧ config.repositories.forM validateRepositoryLabels = .ok ()
    ∧ result = { config with
        issueLabels := config.issueLabels.map lowerLabelColor
        repositories := config.repositories.map
          (finalRepositoryLabels (config.issueLabels.map lowerLabelColor)) } := by
  unfold readConfigLabels at h
  cases hval : validateIssueLabelList config.issueLabels with
  | error e =>
    rw [hval] at h
    simp [Bind.bind, Except.bind] at h
  | ok u =>
    cases u
    rw [hval] at h
    cases hfor : config.repositories.forM validateRepositoryLabels with
    | error e =>
      rw [hfor] at h
      simp [Bind.bind, Except.bind] at h
    | ok v =>
      cases v
      rw [hfor] at h
      simp only [Bind.bind, Except.bind, pure, Except.pure, Except.ok.injEq] at h
      exact ⟨rfl, rfl, h.symm⟩

/-! ## C4: label color validation and lower-casing -/

/-- C4 (amended): after a successful read, org-level label colors are stored
lower-cased; a repository's explicit `issueLabels` override is stored exactly
as written (not lower-cased), and a repository with `additionalIssueLabels`
stores the lower-cased org labels followed by the additional labels exactly
as written. At every site, validation rejects a color that fails the hex
regex with an error naming the color field, and an accepted label's color
satisfies the regex. -/
theorem c4_label_color_handling :
    (∀ (config result : OrgConfig), readConfigLabels config = .ok result →
      result.issueLabels = config.issueLabels.map lowerLabelColor
      ∧ (∀ label ∈ config.issueLabels,
          (lowerLabelColor label).color = label.color.toLower)
      ∧ result.repositories.length = config.repositories.length
      ∧ ∀ (i : Nat) (hi : i < config.repositories.length)
          (hi' : i < result.repositories.length),
          (∀ labels, (config.repositories.get ⟨i, hi⟩).issueLabels = some labels →
            (result.repositories.get ⟨i, hi'⟩).issueLabels = some labels)
          ∧ (∀ additional,
              (config.repositories.get ⟨i, hi⟩).issueLabels = none →
              (config.repositories.get ⟨i, hi⟩).additionalIssueLabels = some additional →
              (result.repositories.get ⟨i, hi'⟩).issueLabels
                = some (config.issueLabels.map lowerLabelColor ++ additional)))
    ∧ (∀ (label : ConfigLabel) (index : Nat),
        label.name.length ≠ 0 → ¬ isHexColor label.color = true →
        validateIssueLabel label index
          = .error (if label.color.length == 0 then colorTypeErrorMessage index
              else colorHexErrorMessage index label.color))
    ∧ (∀ (label : ConfigLabel) (index : Nat),
        validateIssueLabel label index = .ok () → isHexColor label.color = true) := by
  refine ⟨?_, ?_, ?_⟩
  · intro config result h
    obtain ⟨-, -, rfl⟩ := readConfigLabels_ok h
    refine ⟨rfl, fun label _ => rfl, by simp, ?_⟩
    intro i hi hi'
    constructor
    · intro labels hsome
      simp only [List.get_eq_getElem] at hsome
      simp only [List.get_eq_getElem, List.getElem_map]
      rw [finalRepositoryLabels, hsome]
    · intro additional hnone hadd
      simp only [List.get_eq_getElem] at hnone hadd
      simp only [List.get_eq_getElem, List.getElem_map]
      rw [finalRepositoryLabels, hnone, hadd]
  · intro label index hname hhex
    unfold validateIssueLabel
    rw [if_neg (by simpa using hname)]
    by_cases hcolor : (label.color.length == 0) = true
    · rw [if_pos hcolor, if_pos hcolor]
    · rw [if_neg hcolor, if_neg hcolor, if_pos (by simpa using hhex)]
  · intro label index h
    by_contra hhex
    unfold validateIssueLabel at h
    by_cases h1 : (label.name.length == 0) = true
    · rw [if_pos h1] at h
      exact absurd h (by simp)
    · rw [if_neg h1] at h
      by_cases h2 : (label.color.length == 0) = true
      · rw [if_pos h2] at h
        exact absurd h (by simp)
      · rw [if_neg h2, if_pos (by simpa using hhex)] at h
        exact absurd h (by simp)

/-- C4 counterexample: a repository-level `issueLabels` override with color
`AA0000` passes validation, and the stored color is `AA0000` — not the
lower-cased `aa0000` the claim requires; only org-level labels are
lower-cased. -/
theorem c4_counterexample :
    readConfigLabels
        { orgName := "o", teams := [],
          issueLabels := [⟨"bug", "ff0000", none⟩],
          repositories := [⟨"svc", [], some [⟨"x", "AA0000", none⟩], none⟩] }
      = .ok { orgName := "o", teams := [],
              issueLabels := [⟨"bug", "ff0000", none⟩],
              repositories := [⟨"svc", [], some [⟨"x", "AA0000", none⟩], none⟩] }
    ∧ ("AA0000" : String) ≠ "AA0000".toLower := by
  constructor
  · have hlow : lowerLabelColor ⟨"bug", "ff0000", none⟩ = ⟨"bug", "ff0000", none⟩ := by
      simp only [lowerLabelColor, string_toLower_data]
      rfl
    have hval : validateIssueLabelList [(⟨"bug", "ff0000", none⟩ : ConfigLabel)]
        = .ok () := by rfl
    have hfor : List.forM [(⟨"svc", [], some [⟨"x", "AA0000", none⟩], none⟩ :
        RepositoryConfig)] validateRepositoryLabels = .ok () := by rfl
    unfold readConfigLabels
    rw [hval, hfor]
    simp [finalRepositoryLabels, hlow, Bind.bind, Except.bind, pure, Except.pure]
  · rw [string_toLower_data]
    decide

/-- Witness for C4 at concrete inputs: an invalid color is rejected with the
error naming the color field, and a trivially empty configuration reads
successfully with the org labels lower-cased. -/
theorem c4_label_color_handling_witness :
    validateIssueLabel ⟨"x", "gg0000", none⟩ 0
      = .error (if ("gg0000" : String).length == 0 then colorTypeErrorMessage 0
          else colorHexErrorMessage 0 "gg0000")
    ∧ ({ orgName := "o", teams := [], issueLabels := [], repositories := [] }
        : OrgConfig).issueLabels = ([] : List ConfigLabel).map lowerLabelColor := by
  obtain ⟨hread, hreject, -⟩ := c4_label_color_handling
  refine ⟨hreject ⟨"x", "gg0000", none⟩ 0 (by decide) (by decide), ?_⟩
  exact (hread { orgName := "o", teams := [], issueLabels := [], repositories := [] }
    { orgName := "o", teams := [], issueLabels := [], repositories := [] } rfl).1

/-! ## C6: effective issue labels per repository -/

/-- C6: after a successful read, the effective issue label set of a
repository is its `issueLabels` override when set; otherwise the (stored,
lower-cased) org labels concatenated with its `additionalIssueLabels` when
set; otherwise the org labels alone — and a repository absent from the
configuration gets the org labels. -/
theorem c6_effective_issue_labels :
    ∀ (config result : OrgConfig), readConfigLabels config = .ok result →
    ∀ repoName : String,
      (config.repositories.find? (fun repository => repository.name == repoName) = none →
        expectedIssueLabels result repoName = config.issueLabels.map lowerLabelColor)
      ∧ (∀ repository,
          config.repositories.find? (fun r => r.name == repoName) = some repository →
          (∀ labels, repository.issueLabels = some labels →
            expectedIssueLabels result repoName = labels)
          ∧ (∀ additional, repository.issueLabels = none →
              repository.additionalIssueLabels = some additional →
              expectedIssueLabels result repoName
                = config.issueLabels.map lowerLabelColor ++ additional)
          ∧ (repository.issueLabels = none → repository.additionalIssueLabels = none →
              expectedIssueLabels result repoName
                = config.issueLabels.map lowerLabelColor)) := by
  intro config result h repoName
  obtain ⟨-, -, rfl⟩ := readConfigLabels_ok h
  have hpred : ((fun r : RepositoryConfig => r.name == repoName)
        ∘ finalRepositoryLabels (config.issueLabels.map lowerLabelColor))
      = (fun r : RepositoryConfig => r.name == repoName) := by
    funext r
    simp [Function.comp, finalRepositoryLabels_name]
  constructor
  · intro hnone
    unfold expectedIssueLabels
    rw [List.find?_map, hpred, hnone]
    rfl
  · intro repository hfound
    have hmapped : (config.repositories.map
          (finalRepositoryLabels (config.issueLabels.map lowerLabelColor))).find?
        (fun r => r.name == repoName)
      = some (finalRepositoryLabels (config.issueLabels.map lowerLabelColor)
          repository) := by
      rw [List.find?_map, hpred, hfound]
      rfl
    refine ⟨?_, ?_, ?_⟩
    · intro labels hsome
      have hf : (finalRepositoryLabels (config.issueLabels.map lowerLabelColor)
          repository).issueLabels = some labels := by
        rw [finalRepositoryLabels, hsome]
      unfold expectedIssueLabels
      simp only [hmapped, hf]
    · intro additional hnone hadd
      have hf : (finalRepositoryLabels (config.issueLabels.map lowerLabelColor)
            repository).issueLabels
          = some (config.issueLabels.map lowerLabelColor ++ additional) := by
        rw [finalRepositoryLabels, hnone, hadd]
      unfold expectedIssueLabels
      simp only [hmapped, hf]
    · intro hnone hadd
      have hf : finalRepositoryLabels (config.issueLabels.map lowerLabelColor)
          repository = repository := by
        rw [finalRepositoryLabels, hnone, hadd]
      unfold expectedIssueLabels
      simp only [hmapped, hf, hnone]

/-- Witness for C6 at concrete inputs: a repository with
`additionalIssueLabels` gets org labels plus the additional ones, and a
repository with an `issueLabels` override gets exactly the override. -/
theorem c6_effective_issue_labels_witness :
    expectedIssueLabels
        { orgName := "o", teams := [], issueLabels := [],
          repositories := [⟨"svc", [], some ([] ++ [⟨"C", "ccc", none⟩]), some [⟨"C", "ccc", none⟩]⟩,
                           ⟨"oth", [], some [⟨"D", "ddd", none⟩], none⟩] }
        "svc"
      = ([] : List ConfigLabel).map lowerLabelColor ++ [⟨"C", "ccc", none⟩]
    ∧ expectedIssueLabels
        { orgName := "o", teams := [], issueLabels := [],
          repositories := [⟨"svc", [], some ([] ++ [⟨"C", "ccc", none⟩]), some [⟨"C", "ccc", none⟩]⟩,
                           ⟨"oth", [], some [⟨"D", "ddd", none⟩], none⟩] }
        "oth"
      = [⟨"D", "ddd", none⟩] := by
  have hsvc := c6_effective_issue_labels
    { orgName := "o", teams := [],
      issueLabels := [],
      repositories := [⟨"svc", [], none, some [⟨"C", "ccc", none⟩]⟩,
                       ⟨"oth", [], some [⟨"D", "ddd", none⟩], none⟩] }
    { orgName := "o", teams := [], issueLabels := [],
      repositories := [⟨"svc", [], some ([] ++ [⟨"C", "ccc", none⟩]), some [⟨"C", "ccc", none⟩]⟩,
                       ⟨"oth", [], some [⟨"D", "ddd", none⟩], none⟩] }
    rfl
  refine ⟨?_, ?_⟩
  · exact ((hsvc "svc").2 ⟨"svc", [], none, some [⟨"C", "ccc", none⟩]⟩ rfl).2.1
      [⟨"C", "ccc", none⟩] rfl rfl
  · exact ((hsvc "oth").2 ⟨"oth", [], some [⟨"D", "ddd", none⟩], none⟩ rfl).1
      [⟨"D", "ddd", none⟩] rfl

end GithubCommander
